import Mathlib

/-!
Verification of the warehouse upload scheduler (`warehouse/warehouse.go`):
shallow embedding of the job allocator's claim query, the in-progress index,
the job creator's batching and delete-waiting logic, the upload-frequency
gate and the namespace computation, with theorems checking the
natural-language specification against the embedded code.
-/

/-- Upload status `model.Waiting`; the concrete string models the Go constant. -/
def Waiting : String := "waiting"

/-- Upload status `model.ExportedData` (terminal); models the Go constant. -/
def ExportedData : String := "exported_data"

/-- Upload status `model.Aborted` (terminal); models the Go constant. -/
def Aborted : String := "aborted"

/-- Destination type `warehouseutils.CLICKHOUSE`; models the Go constant. -/
def CLICKHOUSE : String := "CLICKHOUSE"

/-- A row of the `wh_uploads` table, with the columns the scheduler reads.
`nsp` is the `namespace` column (a reserved word in Lean), `priority` is
`metadata->>'priority'` (absent encoded as `none`) and `nextRetryTime` is
`metadata->>'nextRetryTime'` as a timestamp (absent encoded as `none`). -/
structure UploadRow where
  id : Nat
  sourceId : String
  destinationId : String
  nsp : String
  destinationType : String
  workspaceId : String
  status : String
  error : String
  inProgress : Bool
  priority : Option Int
  nextRetryTime : Option Int
  endStagingFileId : Int
  deriving DecidableEq, Repr

/-- The SQL expression `COALESCE(metadata->>'priority', '100')::int`. -/
def priorityOf (r : UploadRow) : Int := r.priority.getD 100

/-- The `ORDER BY COALESCE(metadata->>'priority','100')::int ASC, id ASC`
comparison of `getUploadsToProcess`, as a boolean total preorder. -/
def rowLE (a b : UploadRow) : Bool :=
  decide (priorityOf a < priorityOf b) ||
    (decide (priorityOf a = priorityOf b) && decide (a.id ≤ b.id))

/-- Insertion of a row into a list sorted by `le` (structural insertion
sort, standing in for the SQL `ORDER BY`). -/
def insertSortedBy (le : UploadRow → UploadRow → Bool) (a : UploadRow) :
    List UploadRow → List UploadRow
  | [] => [a]
  | b :: t => if le a b then a :: b :: t else b :: insertSortedBy le a t

/-- Stable sort of rows by `le` (the SQL `ORDER BY`). -/
def sortRowsBy (le : UploadRow → UploadRow → Bool) : List UploadRow → List UploadRow
  | [] => []
  | a :: t => insertSortedBy le a (sortRowsBy le t)

/-- The `PARTITION BY` key of the claim query: `destination_id, namespace`,
or `source_id, destination_id, namespace` when
`allowMultipleSourcesForJobsPickup` is set. -/
def pkey (multi : Bool) (r : UploadRow) : List String :=
  if multi then [r.sourceId, r.destinationId, r.nsp]
  else [r.destinationId, r.nsp]

/-- The worker-identifier string of a row, as used by the skip filter of the
claim query: `destination_id || '_' || namespace`, or
`source_id || '_' || destination_id || '_' || namespace` in multi-source
mode (`workerIdentifier` in warehouse.go builds the same string). -/
def skipIdentifier (multi : Bool) (r : UploadRow) : String :=
  if multi then r.sourceId ++ "_" ++ r.destinationId ++ "_" ++ r.nsp
  else r.destinationId ++ "_" ++ r.nsp

/-- The `WHERE` clause of the claim query in `getUploadsToProcess`:
destination type matches, not in progress, status not terminal,
`COALESCE(metadata->>'nextRetryTime', NOW()) <= NOW()`, workspace not
degraded, and the worker identifier not in the skipped list (the SQL emits
the skip clause only when the list is nonempty, which coincides with
membership in the empty list being false). -/
def selectable (multi : Bool) (dt : String) (now : Int)
    (degraded skipped : List String) (r : UploadRow) : Bool :=
  r.destinationType == dt &&
  r.inProgress == false &&
  r.status != ExportedData &&
  r.status != Aborted &&
  decide (r.nextRetryTime.getD now ≤ now) &&
  !(degraded.contains r.workspaceId) &&
  !(skipped.contains (skipIdentifier multi r))

/-- The claim query of `getUploadsToProcess` (warehouse.go): filter by
`selectable`, keep per partition the row with `ROW_NUMBER() = 1` under
`(priority ASC, id ASC)` (with unique ids, the row preceding all its
partition mates), then order all kept rows by the same key and take the
first `availableWorkers`. -/
def getUploadsToProcess (multi : Bool) (dt : String) (now : Int)
    (degraded skipped : List String) (availableWorkers : Nat)
    (rows : List UploadRow) : List UploadRow :=
  let filtered := rows.filter (selectable multi dt now degraded skipped)
  let firstRows := filtered.filter
    (fun r => filtered.all
      (fun q => if pkey multi q = pkey multi r then rowLE r q else true))
  (sortRowsBy rowLE firstRows).take availableWorkers

/-- The minimum of a list of rows under `(priority ASC, id ASC)`, computed
by a fold; `none` on the empty list. Used by the claim-side description of
the query ("keep in each partition only the row minimal by priority, id"). -/
def minRow : List UploadRow → Option UploadRow
  | [] => none
  | x :: xs => some (xs.foldl (fun m r => if rowLE r m && !(rowLE m r) then r else m) x)

/-- The claim's description of the query, written from the claim's own
words: restrict the rows, partition the remainder by the partition key,
keep in each partition only the minimal row by `(priority asc, id asc)`
(priority defaulting to 100), and return the first `w` of those rows
ordered by `(priority asc, id asc)`. -/
def claimQuerySpec (multi : Bool) (dt : String) (now : Int)
    (degraded skipped : List String) (w : Nat)
    (rows : List UploadRow) : List UploadRow :=
  let restricted := rows.filter (selectable multi dt now degraded skipped)
  let keys := (restricted.map (pkey multi)).dedup
  let picks := keys.filterMap
    (fun k => minRow (restricted.filter (fun r => pkey multi r == k)))
  (sortRowsBy rowLE picks).take w

/-- A connection of the Registry (`warehouseutils.Warehouse`), with the
fields the allocator consults. `nsp` is the computed namespace. -/
structure Warehouse where
  sourceId : String
  destinationId : String
  nsp : String
  deriving DecidableEq, Repr

/-- Go `workerIdentifier` (warehouse.go): `destID_namespace`, or
`sourceID_destID_namespace` when `allowMultipleSourcesForJobsPickup`. -/
def workerIdentifier (multi : Bool) (w : Warehouse) : String :=
  if multi then w.sourceId ++ "_" ++ w.destinationId ++ "_" ++ w.nsp
  else w.destinationId ++ "_" ++ w.nsp

/-- The `funk.Find` over `wh.warehouses` in `getUploadsToProcess`: first
warehouse whose source and destination ids match the row. -/
def findWarehouse (ws : List Warehouse) (s d : String) : Option Warehouse :=
  ws.find? (fun w => w.sourceId == s && w.destinationId == d)

/-- Lookup in the in-progress index (`wh.inProgressMap`), an association
list from worker identifier to the list of job ids it owns; a Go map read
of an absent key yields the empty slice. -/
def inProgressList (m : List (String × List Nat)) (p : String) : List Nat :=
  ((m.find? (fun e => e.1 == p)).map (fun e => e.2)).getD []

/-- Go `setDestInProgress`: append the job id to the identifier's list
(creating the entry when absent, as Go map append does). -/
def setDestInProgress (identifier : String) (jobId : Nat)
    (m : List (String × List Nat)) : List (String × List Nat) :=
  if m.any (fun e => e.1 == identifier) then
    m.map (fun e => if e.1 == identifier then (e.1, e.2 ++ [jobId]) else e)
  else m ++ [(identifier, [jobId])]

/-- Go `removeDestInProgress`: remove the first occurrence of the job id from
the identifier's list (no change when absent). -/
def removeDestInProgress (identifier : String) (jobId : Nat)
    (m : List (String × List Nat)) : List (String × List Nat) :=
  m.map (fun e => if e.1 == identifier then (e.1, e.2.erase jobId) else e)

/-- Go `getInProgressNamespaces`: the worker identifiers whose in-progress
list has length at least `maxConcurrentUploadJobs` (`K`). -/
def getInProgressNamespaces (K : Nat) (m : List (String × List Nat)) : List String :=
  (m.filter (fun e => decide (K ≤ e.2.length))).map (fun e => e.1)

/-- The error recorded when the connection of a claimed row is no longer in
the Registry (`fmt.Errorf` in `getUploadsToProcess`). -/
def errStr (s d : String) : String :=
  "unable to find source : " ++ s ++ " or destination : " ++ d ++
    ", both or the connection between them"

/-- Scheduler state: the `wh_uploads` rows and the in-memory in-progress
index. -/
structure AllocState where
  rows : List UploadRow
  inProgressMap : List (String × List Nat)
  deriving Repr

/-- The rows returned by the claim query during one allocator tick, with
the skip list computed from the current in-progress index. -/
def claimedRows (multi : Bool) (K : Nat) (dt : String) (now : Int)
    (degraded : List String) (availableWorkers : Nat) (st : AllocState) :
    List UploadRow :=
  getUploadsToProcess multi dt now degraded
    (getInProgressNamespaces K st.inProgressMap) availableWorkers st.rows

/-- Claimed rows paired with their Registry warehouse; rows whose
connection is absent are dropped here (they are aborted instead). -/
def matchedPairs (ws : List Warehouse) (claimed : List UploadRow) :
    List (UploadRow × Warehouse) :=
  claimed.filterMap
    (fun r => (findWarehouse ws r.sourceId r.destinationId).map (fun w => (r, w)))

/-- One allocator tick (`runUploadJobAllocator` body): compute the skip
list, run the claim query, abort claimed rows whose connection is no
longer in the Registry, and record every other claimed job in the
in-progress index under its warehouse's worker identifier.
Modelled from the spec: `setUploadError(err, model.Aborted)` (whose body is
outside the embedded sources) persists the Aborted status and the error on
the row. -/
def allocatorTick (multi : Bool) (K : Nat) (dt : String) (ws : List Warehouse)
    (now : Int) (degraded : List String) (availableWorkers : Nat)
    (st : AllocState) : AllocState :=
  let claimed := claimedRows multi K dt now degraded availableWorkers st
  let matched := matchedPairs ws claimed
  let abortedIds := (claimed.filter
    (fun r => (findWarehouse ws r.sourceId r.destinationId).isNone)).map
      (fun r => r.id)
  { rows := st.rows.map (fun r =>
      if abortedIds.contains r.id then
        { r with status := Aborted, error := errStr r.sourceId r.destinationId }
      else r)
    inProgressMap := matched.foldl
      (fun m rw => setDestInProgress (workerIdentifier multi rw.2) rw.1.id m)
      st.inProgressMap }

/-- A scheduler step: an allocator tick (with arbitrary clock, degraded
set and available workers) or a worker completion (which removes a job id
from an index entry, as the worker's deferred `removeDestInProgress`). -/
inductive AllocStep (multi : Bool) (K : Nat) (dt : String) (ws : List Warehouse) :
    AllocState → AllocState → Prop
  | tick (now : Int) (degraded : List String) (availableWorkers : Nat)
      (st : AllocState) :
      AllocStep multi K dt ws st (allocatorTick multi K dt ws now degraded availableWorkers st)
  | complete (p : String) (jobId : Nat) (st : AllocState) :
      AllocStep multi K dt ws st
        { st with inProgressMap := removeDestInProgress p jobId st.inProgressMap }

/-- States reachable from an initial state by ticks and completions. -/
def AllocReachable (multi : Bool) (K : Nat) (dt : String) (ws : List Warehouse) :
    AllocState → AllocState → Prop :=
  Relation.ReflTransGen (AllocStep multi K dt ws)

/-- The initial scheduler state: the in-progress index starts empty
(`Setup` allocates a fresh map). -/
def initState (rows : List UploadRow) : AllocState :=
  { rows := rows, inProgressMap := [] }

/-- Side conditions under which the in-progress bound is provable: ids are
unique; rows in different partitions have different identifier strings
(underscore collisions excluded); and the identifier the allocator records
(from the Registry warehouse) agrees with the row's own identifier
string. -/
def rowsGood (multi : Bool) (ws : List Warehouse) (rows : List UploadRow) : Prop :=
  (rows.map UploadRow.id).Nodup ∧
  (∀ r₁ ∈ rows, ∀ r₂ ∈ rows, pkey multi r₁ ≠ pkey multi r₂ →
      skipIdentifier multi r₁ ≠ skipIdentifier multi r₂) ∧
  (∀ r ∈ rows, ∀ w, findWarehouse ws r.sourceId r.destinationId = some w →
      workerIdentifier multi w = skipIdentifier multi r)

/-- A staging-file row, with the fields the Job Creator's batching reads. -/
structure StagingFile where
  id : Nat
  useRudderStorage : Bool
  deriving DecidableEq, Repr

/-- The loop body of `createUploadJobsFromStagingFiles`: walk the pending
staging files carrying the previous file's `useRudderStorage` (`none`
before the first file), the accumulated batch and its counter; flush the
batch when the storage flag flips, when the counter reaches
`stagingFilesBatchSize`, and at the last file. Returns the flushed batches
in order. -/
def createUploadJobsLoop (n : Nat) :
    List StagingFile → Option Bool → List StagingFile → Nat → List (List StagingFile)
  | [], _, _, _ => []
  | f :: rest, prev, acc, counter =>
    let flip := prev.isSome && decide (0 < counter) && (some f.useRudderStorage != prev)
    let emitted := if flip then [acc] else []
    let acc₁ := if flip then [] else acc
    let counter₁ := if flip then 0 else counter
    let acc₂ := acc₁ ++ [f]
    let counter₂ := counter₁ + 1
    if counter₂ == n || rest.isEmpty then
      emitted ++ [acc₂] ++ createUploadJobsLoop n rest (some f.useRudderStorage) [] 0
    else
      emitted ++ createUploadJobsLoop n rest (some f.useRudderStorage) acc₂ counter₂

/-- The `(startStagingFileId, endStagingFileId)` range of one emitted `insertJob`:
ids of the first and last members of the batch (never empty in the code;
0 stands in for the Go panic on an empty slice). -/
def startEnd (c : List StagingFile) : Nat × Nat :=
  (((c.head?).map StagingFile.id).getD 0, ((c.getLast?).map StagingFile.id).getD 0)

/-- Go `createUploadJobsFromStagingFiles`, as the list of
`(startStagingFileId, endStagingFileId)` ranges of the inserted jobs. -/
def createUploadJobsFromStagingFiles (n : Nat) (files : List StagingFile) :
    List (Nat × Nat) :=
  (createUploadJobsLoop n files none [] 0).map startEnd

/-- Chunking of a run by the batch size, from the claim's words ("chunk
each run into groups of at most `stagingFilesBatchSize`"); `n = 0` keeps
the run whole. -/
def chunksOf {α : Type} : Nat → List α → List (List α)
  | _, [] => []
  | 0, l => [l]
  | n + 1, x :: xs => (x :: xs.take n) :: chunksOf (n + 1) (xs.drop n)
termination_by n l => l.length
decreasing_by simp [List.length_drop]; omega

/-- Maximal contiguous runs under a comparison with the run's first
element, from the claim's words ("maximal contiguous runs of equal
`useRudderStorage`"). -/
def runsBy {α : Type} (f : α → α → Bool) : List α → List (List α)
  | [] => []
  | x :: xs => (x :: xs.takeWhile (f x)) :: runsBy f (xs.dropWhile (f x))
termination_by l => l.length
decreasing_by
  have h := (@List.dropWhile_sublist _ xs (f x)).length_le
  simp; omega

/-- The claim's description of the Job Creator's batching: split into
maximal runs of equal `useRudderStorage`, chunk each run by the batch
size, and emit one job range per chunk. -/
def claimBatchingSpec (n : Nat) (files : List StagingFile) : List (Nat × Nat) :=
  ((runsBy (fun a b => a.useRudderStorage == b.useRudderStorage) files).flatMap
    (chunksOf n)).map startEnd

/-- The priority entry of `metadataMap` as written by `initUpload`: first set to 50
when the upload was manually triggered, then overwritten by the
carried-forward priority when that is non-zero; `none` means the key is
absent (so the claim query defaults it to 100). -/
def metadataPriority (isUploadTriggered : Bool) (priority : Int) : Option Int :=
  let m : Option Int := none
  let m₁ := if isUploadTriggered then some (50 : Int) else m
  if priority != 0 then some priority else m₁

/-- The first query of `getPendingStagingFiles`: scan
`end_staging_file_id` of the matching `wh_uploads` rows `ORDER BY id DESC`
and keep the first row's value; 0 when there is no row (`sql.ErrNoRows`
leaves the zero value). -/
def latestEndStagingFileId (dt s d : String) (rows : List UploadRow) : Int :=
  match (sortRowsBy (fun a b => decide (b.id ≤ a.id))
      (rows.filter
        (fun r => r.destinationType == dt && r.sourceId == s &&
          r.destinationId == d))).head? with
  | some r => r.endStagingFileId
  | none => 0

/-- The claim's description: `MAX(endStagingFileId)` over the matching
rows, 0 when there is none. -/
def maxEndStagingFileId (dt s d : String) (rows : List UploadRow) : Int :=
  ((rows.filter
    (fun r => r.destinationType == dt && r.sourceId == s &&
      r.destinationId == d)).map (fun r => r.endStagingFileId)).foldr max 0

/-- The result of `getLatestUploadStatus` (id, status, priority); the
no-rows case surfaces as `{id := 0, status := "", priority := 0}`. -/
structure LatestUpload where
  id : Nat
  status : String
  priority : Int
  deriving DecidableEq, Repr

/-- Observable outcome of one `createJobs` call on a connection. -/
structure CreateJobsOutcome where
  deletedJobId : Option Nat
  carriedPriority : Int
  insertedJobs : List (Nat × Nat)
  markerUpdate : Option Int
  deriving DecidableEq, Repr

/-- Go `getUploadStartAfterTime`: now plus the random jitter (< 15s) when
`enableJitterForSyncs`, else now. -/
def getUploadStartAfterTime (enableJitter : Bool) (now jitter : Int) : Int :=
  if enableJitter then now + jitter else now

/-- Go `createJobs` (warehouse.go) from the upload-frequency gate on:
`canCreate` is the gate's verdict (`wh.canCreateUpload`), `latest` the
latest upload of the connection, `inProgressIds` the in-progress index
entry consulted by `isUploadJobInProgress`, `pending` the pending staging
files. The latest job is deleted (and its priority carried) exactly when
it is Waiting and not in progress; when `pending` is empty the call
returns with no job created and no marker update; otherwise the batched
jobs are inserted and the marker is set to `uploadStartAfter`. -/
def createJobs (canCreate : Bool) (latest : LatestUpload)
    (inProgressIds : List Nat) (pending : List StagingFile) (n : Nat)
    (uploadStartAfter : Int) : CreateJobsOutcome :=
  if !canCreate then ⟨none, 0, [], none⟩
  else
    let del := latest.status == Waiting && !(inProgressIds.contains latest.id)
    let deletedJobId := if del then some latest.id else none
    let priority := if del then latest.priority else 0
    if pending.isEmpty then ⟨deletedJobId, priority, [], none⟩
    else ⟨deletedJobId, priority, createUploadJobsFromStagingFiles n pending,
          some uploadStartAfter⟩

/-- Go `deleteWaitingUploadJob`: `DELETE FROM wh_uploads WHERE id = jobId AND
status = 'waiting'`. -/
def deleteWaitingUploadJob (jobId : Nat) (rows : List UploadRow) : List UploadRow :=
  rows.filter (fun r => !(r.id == jobId && r.status == Waiting))

/-- Sign and digit characters of a candidate base-10 integer literal, as
Go `strconv.ParseInt(s, 10, 64)` splits them. -/
def goIntParts (s : String) : Bool × List Char :=
  match s.data with
  | '-' :: rest => (true, rest)
  | '+' :: rest => (false, rest)
  | l => (false, l)

/-- Whether a string parses as a base-10 integer for
`strconv.ParseInt(s, 10, 64)`: an optional sign followed by one or more
decimal digits. -/
def isGoInt64Literal (s : String) : Bool :=
  !(goIntParts s).2.isEmpty && (goIntParts s).2.all Char.isDigit

/-- Decimal value of a digit string. -/
def digitsToNat (l : List Char) : Nat :=
  l.foldl (fun acc c => acc * 10 + (c.toNat - 48)) 0

/-- Go `strconv.ParseInt(s, 10, 64)` value result with the error
discarded: 0 on a syntax error, the clamped bound on overflow. -/
def goParseInt64 (s : String) : Int :=
  if !(isGoInt64Literal s) then 0
  else
    let v : Int :=
      if (goIntParts s).1 then -(digitsToNat (goIntParts s).2 : Int)
      else (digitsToNat (goIntParts s).2 : Int)
    if v < -(2 ^ 63) then -(2 ^ 63)
    else if 2 ^ 63 - 1 < v then 2 ^ 63 - 1
    else v

/-- Go `getUploadFreqInS`: the destination's `syncFrequency` (minutes) times
60 when non-empty — with the parse error silently discarded — else the
default `uploadFreqInS`. -/
def getUploadFreqInS (uploadFreqDefault : Int) (syncFrequency : String) : Int :=
  if syncFrequency != "" then goParseInt64 syncFrequency * 60
  else uploadFreqDefault

/-- Go `uploadFrequencyExceeded`: true when a last-processed marker exists and
`now - marker < freqInS`. -/
def uploadFrequencyExceeded (uploadFreqDefault : Int) (syncFrequency : String)
    (marker : Option Int) (now : Int) : Bool :=
  match marker with
  | some lastExecTime =>
      decide (now - lastExecTime < getUploadFreqInS uploadFreqDefault syncFrequency)
  | none => false

/-- A destination-config value: a JSON string or any non-string value
(on which Go's unchecked `.(string)` assertion panics). -/
inductive ConfigVal where
  | str : String → ConfigVal
  | other : ConfigVal
  deriving DecidableEq, Repr

/-- Map read `configMap[k]`; `none` is Go's nil for an absent key. -/
def lookupCfg (cfg : List (String × ConfigVal)) (k : String) : Option ConfigVal :=
  (cfg.find? (fun e => e.1 == k)).map (fun e => e.2)

/-- Go `getNamespace` (warehouse.go). `none` models a Go panic (unchecked
type assertion). The external helpers `ToProviderCase`, `ToSafeNamespace`
and the `wh_schemas` catalog lookup are outside the embedded sources and
are passed as opaque parameters, preserving the branch structure. -/
def getNamespace (destType : String) (cfg : List (String × ConfigVal))
    (sourceName customDatasetPfx : String) (catalogNamespace : Option String)
    (toProviderCase toSafeNamespace : String → String) : Option String :=
  if destType == CLICKHOUSE then
    match lookupCfg cfg "database" with
    | some (ConfigVal.str s) => some s
    | _ => none
  else
    let fallback :=
      if customDatasetPfx != "" then
        some (toProviderCase (toSafeNamespace (customDatasetPfx ++ "_" ++ sourceName)))
      else
        match catalogNamespace with
        | some ns => some ns
        | none => some (toProviderCase (toSafeNamespace sourceName))
    match lookupCfg cfg "namespace" with
    | some (ConfigVal.str ns) =>
        if 0 < ns.trim.length then some (toProviderCase (toSafeNamespace ns))
        else fallback
    | some ConfigVal.other => none
    | none => fallback

/-- A destination record of a config snapshot (id, its
`destinationDefinition.name`, and its config). -/
structure DestCfg where
  id : String
  defName : String
  config : List (String × ConfigVal)
  deriving DecidableEq, Repr

/-- A source record of a config snapshot. -/
structure SourceCfg where
  id : String
  name : String
  destinations : List DestCfg
  deriving DecidableEq, Repr

/-- The (source, destination) pairs a router for `destType` iterates over
when applying a snapshot (`backendConfigSubscriber` skips destinations of
other types). -/
def snapshotConnections (destType : String) (sources : List SourceCfg) :
    List (SourceCfg × DestCfg) :=
  sources.flatMap
    (fun s => (s.destinations.filter (fun d => d.defName == destType)).map
      (fun d => (s, d)))

/-- Sequence a panic-propagating computation over a list (`none` at any
element aborts, as the subscriber goroutine dies on the first panic). -/
def traverseOption {α β : Type} (f : α → Option β) : List α → Option (List β)
  | [] => some []
  | x :: xs =>
    match f x, traverseOption f xs with
    | some y, some ys => some (y :: ys)
    | _, _ => none

/-- Applying a config snapshot: compute the namespace of every matching
connection; `none` models the subscriber goroutine crashing on a
`getNamespace` panic. -/
def applySnapshot (destType : String) (sources : List SourceCfg)
    (customDatasetPfx : String) (catalogNamespace : Option String)
    (toProviderCase toSafeNamespace : String → String) :
    Option (List (String × String × String)) :=
  traverseOption
    (fun sd =>
      (getNamespace destType sd.2.config sd.1.name customDatasetPfx
        catalogNamespace toProviderCase toSafeNamespace).map
        (fun ns => (sd.1.id, sd.2.id, ns)))
    (snapshotConnections destType sources)

theorem rowLE_refl (a : UploadRow) : rowLE a a = true := by
  simp [rowLE]

theorem rowLE_total (a b : UploadRow) : (rowLE a b || rowLE b a) = true := by
  simp only [rowLE, Bool.or_eq_true, Bool.and_eq_true, decide_eq_true_eq]
  omega

theorem rowLE_trans (a b c : UploadRow) (h₁ : rowLE a b = true)
    (h₂ : rowLE b c = true) : rowLE a c = true := by
  simp only [rowLE, Bool.or_eq_true, Bool.and_eq_true, decide_eq_true_eq] at h₁ h₂ ⊢
  omega

theorem rowLE_antisymm_key {a b : UploadRow} (h₁ : rowLE a b = true)
    (h₂ : rowLE b a = true) : priorityOf a = priorityOf b ∧ a.id = b.id := by
  simp only [rowLE, Bool.or_eq_true, Bool.and_eq_true, decide_eq_true_eq] at h₁ h₂
  omega

theorem foldl_minRow_mem (xs : List UploadRow) (x : UploadRow) :
    xs.foldl (fun m r => if rowLE r m && !(rowLE m r) then r else m) x ∈ x :: xs := by
  induction xs generalizing x with
  | nil => simp
  | cons y ys ih =>
    simp only [List.foldl_cons]
    rcases List.mem_cons.mp (ih (if rowLE y x && !(rowLE x y) then y else x)) with h1 | h1
    · rw [h1]
      by_cases hc : (rowLE y x && !(rowLE x y)) = true
      · simp [hc]
      · simp [hc]
    · exact List.mem_cons_of_mem x (List.mem_cons_of_mem y h1)

theorem foldl_minRow_le : ∀ (xs : List UploadRow) (x r : UploadRow), r ∈ x :: xs →
    rowLE (xs.foldl (fun m r => if rowLE r m && !(rowLE m r) then r else m) x) r = true := by
  intro xs
  induction xs with
  | nil =>
    intro x r hr
    simp only [List.mem_singleton] at hr
    rw [hr, List.foldl_nil]
    exact rowLE_refl x
  | cons y ys ih =>
    intro x r hr
    simp only [List.foldl_cons]
    have hzx : rowLE (if rowLE y x && !(rowLE x y) then y else x) x = true := by
      by_cases hc : (rowLE y x && !(rowLE x y)) = true
      · rw [if_pos hc]; exact (Bool.and_eq_true .. ▸ hc).1
      · rw [if_neg hc]; exact rowLE_refl x
    have hzy : rowLE (if rowLE y x && !(rowLE x y) then y else x) y = true := by
      by_cases hc : (rowLE y x && !(rowLE x y)) = true
      · rw [if_pos hc]; exact rowLE_refl y
      · rw [if_neg hc]
        rcases Bool.or_eq_true .. ▸ rowLE_total x y with h | h
        · exact h
        · by_cases hxy : rowLE x y = true
          · exact hxy
          · exact absurd (by simp [h, hxy]) hc
    rcases List.mem_cons.mp hr with h1 | h1
    · rw [h1]
      exact rowLE_trans _ _ _
        (ih _ _ (List.mem_cons_self _ _)) hzx
    · rcases List.mem_cons.mp h1 with h2 | h2
      · rw [h2]
        exact rowLE_trans _ _ _
          (ih _ _ (List.mem_cons_self _ _)) hzy
      · exact ih _ _ (List.mem_cons_of_mem _ h2)

theorem minRow_mem {l : List UploadRow} {m : UploadRow} (h : minRow l = some m) :
    m ∈ l := by
  cases l with
  | nil => simp [minRow] at h
  | cons x xs =>
    simp only [minRow, Option.some.injEq] at h
    rw [← h]
    exact foldl_minRow_mem xs x

theorem minRow_le {l : List UploadRow} {m : UploadRow} (h : minRow l = some m) :
    ∀ r ∈ l, rowLE m r = true := by
  intro r hr
  cases l with
  | nil => simp at hr
  | cons x xs =>
    simp only [minRow, Option.some.injEq] at h
    rw [← h]
    exact foldl_minRow_le xs x r hr

theorem minRow_cons_isSome (x : UploadRow) (xs : List UploadRow) :
    ∃ m, minRow (x :: xs) = some m := by
  simp [minRow]

theorem eq_of_perm_sorted_ids {l₁ l₂ : List UploadRow} (h : l₁.Perm l₂)
    (h₁ : l₁.Pairwise (fun a b => rowLE a b = true))
    (h₂ : l₂.Pairwise (fun a b => rowLE a b = true))
    (hid : (l₁.map UploadRow.id).Nodup) : l₁ = l₂ := by
  induction l₁ generalizing l₂ with
  | nil => exact h.symm.eq_nil.symm
  | cons a t₁ ih =>
    cases l₂ with
    | nil => exact absurd h.eq_nil (by simp)
    | cons b t₂ =>
      have hab : rowLE a b = true := by
        rcases List.mem_cons.mp (h.mem_iff.mpr (List.mem_cons_self b t₂)) with hba | hbt
        · rw [hba]; exact rowLE_refl a
        · exact (List.pairwise_cons.mp h₁).1 b hbt
      have hba : rowLE b a = true := by
        rcases List.mem_cons.mp (h.mem_iff.mp (List.mem_cons_self a t₁)) with hab' | hat
        · rw [← hab']; exact rowLE_refl a
        · exact (List.pairwise_cons.mp h₂).1 a hat
      have hkey := rowLE_antisymm_key hab hba
      have haeqb : a = b := by
        rcases List.mem_cons.mp (h.mem_iff.mp (List.mem_cons_self a t₁)) with h' | hat
        · exact h'
        · exfalso
          have hid₂ : ((b :: t₂).map UploadRow.id).Nodup :=
            ((h.map UploadRow.id).nodup_iff).mp hid
          simp only [List.map_cons, List.nodup_cons] at hid₂
          exact hid₂.1 (hkey.2 ▸ List.mem_map_of_mem UploadRow.id hat)
      subst haeqb
      have hrec := ih h.cons_inv (List.pairwise_cons.mp h₁).2 (List.pairwise_cons.mp h₂).2
        (by simp only [List.map_cons, List.nodup_cons] at hid; exact hid.2)
      rw [hrec]

theorem eq_of_id_eq {l : List UploadRow} (h : (l.map UploadRow.id).Nodup)
    {a b : UploadRow} (ha : a ∈ l) (hb : b ∈ l) (hab : a.id = b.id) : a = b :=
  List.inj_on_of_nodup_map h ha hb hab

theorem insertSortedBy_perm (le : UploadRow → UploadRow → Bool) (a : UploadRow) :
    ∀ l, (insertSortedBy le a l).Perm (a :: l) := by
  intro l
  induction l with
  | nil => simp [insertSortedBy]
  | cons b t ih =>
    simp only [insertSortedBy]
    by_cases h : le a b = true
    · rw [if_pos h]
    · rw [if_neg h]
      exact (ih.cons b).trans (List.Perm.swap a b t)

theorem sortRowsBy_perm (le : UploadRow → UploadRow → Bool) :
    ∀ l, (sortRowsBy le l).Perm l := by
  intro l
  induction l with
  | nil => simp [sortRowsBy]
  | cons a t ih => exact (insertSortedBy_perm le a (sortRowsBy le t)).trans (ih.cons a)

theorem pairwise_insertSortedBy (le : UploadRow → UploadRow → Bool)
    (htot : ∀ a b, (le a b || le b a) = true)
    (htrans : ∀ a b c, le a b = true → le b c = true → le a c = true)
    (a : UploadRow) : ∀ l, l.Pairwise (fun x y => le x y = true) →
    (insertSortedBy le a l).Pairwise (fun x y => le x y = true) := by
  intro l
  induction l with
  | nil =>
    intro _
    simp [insertSortedBy]
  | cons b t ih =>
    intro hp
    rcases List.pairwise_cons.mp hp with ⟨hb, ht⟩
    simp only [insertSortedBy]
    by_cases h : le a b = true
    · rw [if_pos h]
      refine List.pairwise_cons.mpr ⟨?_, hp⟩
      intro x hx
      rcases List.mem_cons.mp hx with h1 | h1
      · exact h1 ▸ h
      · exact htrans a b x h (hb x h1)
    · rw [if_neg h]
      have hba : le b a = true := by
        rcases Bool.or_eq_true .. ▸ htot a b with h1 | h1
        · exact absurd h1 h
        · exact h1
      refine List.pairwise_cons.mpr ⟨?_, ih ht⟩
      intro x hx
      rcases List.mem_cons.mp ((insertSortedBy_perm le a t).mem_iff.mp hx) with h1 | h1
      · exact h1 ▸ hba
      · exact hb x h1

theorem pairwise_sortRowsBy (le : UploadRow → UploadRow → Bool)
    (htot : ∀ a b, (le a b || le b a) = true)
    (htrans : ∀ a b c, le a b = true → le b c = true → le a c = true) :
    ∀ l, (sortRowsBy le l).Pairwise (fun x y => le x y = true) := by
  intro l
  induction l with
  | nil => simp [sortRowsBy]
  | cons a t ih => exact pairwise_insertSortedBy le htot htrans a _ ih

theorem pairwise_sortRows_rowLE (l : List UploadRow) :
    (sortRowsBy rowLE l).Pairwise (fun a b => rowLE a b = true) :=
  pairwise_sortRowsBy rowLE rowLE_total rowLE_trans l

/-- C1: for every allocator tick with `availableWorkers = w ≥ 1`, skipped
partition keys `S` and degraded workspaces `D`, the claim query of
`getUploadsToProcess` returns exactly the rows described by the claim:
restrict by destination type, in-progress flag, terminal statuses,
`nextRetryTime` (defaulting to now), degraded workspaces and skipped
partition keys; partition by `(destinationId, namespace)` — or
`(sourceId, destinationId, namespace)` in multi-source mode; keep per
partition the row minimal by `(priority asc, id asc)` with priority
defaulting to 100; and return the first `w` of those rows ordered by
`(priority asc, id asc)`. Stated for upload tables with unique row ids
(the primary key). -/
theorem c1_claim_query_selection (multi : Bool) (dt : String) (now : Int)
    (degraded skipped : List String) (w : Nat) (rows : List UploadRow)
    (hids : (rows.map UploadRow.id).Nodup) (hw : 1 ≤ w) :
    getUploadsToProcess multi dt now degraded skipped w rows =
      claimQuerySpec multi dt now degraded skipped w rows := by
  unfold getUploadsToProcess claimQuerySpec
  simp only []
  set P := rows.filter (selectable multi dt now degraded skipped) with hP
  set firstRows := P.filter
    (fun r => P.all (fun q => if pkey multi q = pkey multi r then rowLE r q else true))
    with hFR
  set picks := ((P.map (pkey multi)).dedup).filterMap
    (fun k => minRow (P.filter (fun r => pkey multi r == k))) with hPicks
  suffices hs : sortRowsBy rowLE firstRows = sortRowsBy rowLE picks by rw [hs]
  have hPid : (P.map UploadRow.id).Nodup :=
    List.Nodup.sublist ((List.filter_sublist rows).map UploadRow.id) hids
  have hPnd : P.Nodup := List.Nodup.of_map UploadRow.id hPid
  have hFRsub : firstRows.Sublist P := List.filter_sublist P
  have hFRid : (firstRows.map UploadRow.id).Nodup :=
    List.Nodup.sublist (hFRsub.map UploadRow.id) hPid
  have hmem_fr : ∀ r, r ∈ firstRows ↔
      (r ∈ P ∧ ∀ q ∈ P, pkey multi q = pkey multi r → rowLE r q = true) := by
    intro r
    rw [hFR, List.mem_filter, List.all_eq_true]
    constructor
    · rintro ⟨h1, h2⟩
      refine ⟨h1, fun q hq hk => ?_⟩
      have := h2 q hq
      rwa [if_pos hk] at this
    · rintro ⟨h1, h2⟩
      refine ⟨h1, fun q hq => ?_⟩
      by_cases hk : pkey multi q = pkey multi r
      · rw [if_pos hk]; exact h2 q hq hk
      · rw [if_neg hk]
  have hmem_picks : ∀ r, r ∈ picks ↔
      ∃ k, k ∈ (P.map (pkey multi)).dedup ∧
        minRow (P.filter (fun q => pkey multi q == k)) = some r := by
    intro r
    rw [hPicks, List.mem_filterMap]
  have hkey_of_min : ∀ k r, minRow (P.filter (fun q => pkey multi q == k)) = some r →
      r ∈ P ∧ pkey multi r = k := by
    intro k r hm
    have hmem := minRow_mem hm
    rw [List.mem_filter] at hmem
    exact ⟨hmem.1, by simpa using hmem.2⟩
  have hext : ∀ r, r ∈ picks ↔ r ∈ firstRows := by
    intro r
    rw [hmem_picks, hmem_fr]
    constructor
    · rintro ⟨k, hk, hm⟩
      obtain ⟨hrP, hrk⟩ := hkey_of_min k r hm
      refine ⟨hrP, fun q hq hqk => ?_⟩
      have hqf : q ∈ P.filter (fun q => pkey multi q == k) := by
        rw [List.mem_filter]
        exact ⟨hq, by simp [hqk, hrk]⟩
      exact minRow_le hm q hqf
    · rintro ⟨hrP, hmin⟩
      refine ⟨pkey multi r, List.mem_dedup.mpr (List.mem_map_of_mem _ hrP), ?_⟩
      have hrf : r ∈ P.filter (fun q => pkey multi q == pkey multi r) := by
        rw [List.mem_filter]; exact ⟨hrP, by simp⟩
      obtain ⟨m, hm⟩ :
          ∃ m, minRow (P.filter (fun q => pkey multi q == pkey multi r)) = some m := by
        cases hflt : P.filter (fun q => pkey multi q == pkey multi r) with
        | nil => rw [hflt] at hrf; simp at hrf
        | cons x xs => exact minRow_cons_isSome x xs
      obtain ⟨hmP, hmk⟩ := hkey_of_min _ m hm
      have h₁ : rowLE m r = true := minRow_le hm r hrf
      have h₂ : rowLE r m = true := hmin m hmP hmk
      have : m = r := eq_of_id_eq hPid hmP hrP (rowLE_antisymm_key h₁ h₂).2
      rw [this] at hm
      exact hm
  have hNodupPicks : picks.Nodup := by
    rw [hPicks]
    refine List.Nodup.filterMap ?_ (List.nodup_dedup _)
    intro k k' r hk hk'
    rw [Option.mem_def] at hk hk'
    rw [← (hkey_of_min k r hk).2, ← (hkey_of_min k' r hk').2]
  have hNodupFR : firstRows.Nodup := List.Nodup.sublist hFRsub hPnd
  have hperm : picks.Perm firstRows :=
    (List.perm_ext_iff_of_nodup hNodupPicks hNodupFR).mpr hext
  exact eq_of_perm_sorted_ids
    (((sortRowsBy_perm rowLE firstRows).trans hperm.symm).trans
      (sortRowsBy_perm rowLE picks).symm)
    (pairwise_sortRows_rowLE firstRows)
    (pairwise_sortRows_rowLE picks)
    (((sortRowsBy_perm rowLE firstRows).map UploadRow.id).nodup_iff.mpr hFRid)

/-- Witness for C1 at a concrete tick: four selectable rows in two
partitions, two workers. -/
theorem c1_claim_query_selection_witness :
    (([UploadRow.mk 1 "s" "d1" "n" "RS" "w" "waiting" "" false (some 200) none 0,
       UploadRow.mk 2 "s" "d1" "n" "RS" "w" "waiting" "" false none none 0,
       UploadRow.mk 3 "s" "d2" "n" "RS" "w" "waiting" "" false (some 50) none 0,
       UploadRow.mk 4 "s" "d2" "n" "RS" "w" "waiting" "" false none none 0].map
         UploadRow.id).Nodup ∧ 1 ≤ 2) ∧
    getUploadsToProcess false "RS" 0 [] [] 2
      [UploadRow.mk 1 "s" "d1" "n" "RS" "w" "waiting" "" false (some 200) none 0,
       UploadRow.mk 2 "s" "d1" "n" "RS" "w" "waiting" "" false none none 0,
       UploadRow.mk 3 "s" "d2" "n" "RS" "w" "waiting" "" false (some 50) none 0,
       UploadRow.mk 4 "s" "d2" "n" "RS" "w" "waiting" "" false none none 0] =
    claimQuerySpec false "RS" 0 [] [] 2
      [UploadRow.mk 1 "s" "d1" "n" "RS" "w" "waiting" "" false (some 200) none 0,
       UploadRow.mk 2 "s" "d1" "n" "RS" "w" "waiting" "" false none none 0,
       UploadRow.mk 3 "s" "d2" "n" "RS" "w" "waiting" "" false (some 50) none 0,
       UploadRow.mk 4 "s" "d2" "n" "RS" "w" "waiting" "" false none none 0] :=
  ⟨⟨by decide, by decide⟩,
    c1_claim_query_selection false "RS" 0 [] [] 2 _ (by decide) (by decide)⟩

theorem chunksOf_nil {α : Type} (n : Nat) : chunksOf n ([] : List α) = [] := by
  cases n <;> simp [chunksOf]

theorem chunksOf_small {α : Type} {n : Nat} {l : List α} (hne : l ≠ [])
    (hlen : l.length ≤ n) : chunksOf n l = [l] := by
  cases l with
  | nil => exact absurd rfl hne
  | cons x xs =>
    cases n with
    | zero => simp at hlen
    | succ m =>
      have hxs : xs.length ≤ m := by simp at hlen; omega
      simp only [chunksOf]
      rw [List.take_of_length_le hxs, List.drop_eq_nil_of_le hxs, chunksOf_nil]

theorem chunksOf_append {α : Type} {n : Nat} {l₁ : List α} (l₂ : List α)
    (hlen : l₁.length = n) (hne : l₁ ≠ []) :
    chunksOf n (l₁ ++ l₂) = l₁ :: chunksOf n l₂ := by
  cases l₁ with
  | nil => exact absurd rfl hne
  | cons x xs =>
    subst hlen
    simp only [List.length_cons, List.cons_append, chunksOf]
    rw [List.take_left, List.drop_left]

theorem loop_prev_irrel (n : Nat) (files : List StagingFile) (p q : Option Bool) :
    createUploadJobsLoop n files p [] 0 = createUploadJobsLoop n files q [] 0 := by
  cases files with
  | nil => rfl
  | cons f rest => simp [createUploadJobsLoop]

theorem head_dropWhile_false {α : Type} (p : α → Bool) :
    ∀ (l : List α) (r : α), (l.dropWhile p).head? = some r → p r = false := by
  intro l
  induction l with
  | nil => intro r h; simp [List.dropWhile] at h
  | cons x xs ih =>
    intro r h
    rw [List.dropWhile_cons] at h
    by_cases hp : p x = true
    · rw [if_pos hp] at h; exact ih r h
    · rw [if_neg hp] at h
      simp only [List.head?_cons, Option.some.injEq] at h
      rw [← h]
      exact Bool.not_eq_true _ ▸ hp

theorem loop_cons_noflip (n : Nat) (f : StagingFile) (rest : List StagingFile)
    (prev : Option Bool) (acc : List StagingFile) (counter : Nat)
    (h : (prev.isSome && decide (0 < counter) && (some f.useRudderStorage != prev)) = false) :
    createUploadJobsLoop n (f :: rest) prev acc counter =
      if (counter + 1 == n || rest.isEmpty) = true then
        [acc ++ [f]] ++ createUploadJobsLoop n rest (some f.useRudderStorage) [] 0
      else createUploadJobsLoop n rest (some f.useRudderStorage) (acc ++ [f]) (counter + 1) := by
  simp only [createUploadJobsLoop, h, Bool.false_eq_true, if_false]
  split <;> simp

theorem loop_cons_flip (n : Nat) (f : StagingFile) (rest : List StagingFile)
    (prev : Option Bool) (acc : List StagingFile) (counter : Nat)
    (h : (prev.isSome && decide (0 < counter) && (some f.useRudderStorage != prev)) = true) :
    createUploadJobsLoop n (f :: rest) prev acc counter =
      acc :: (if ((0 : Nat) + 1 == n || rest.isEmpty) = true then
        [[f]] ++ createUploadJobsLoop n rest (some f.useRudderStorage) [] 0
      else createUploadJobsLoop n rest (some f.useRudderStorage) [f] (0 + 1)) := by
  simp only [createUploadJobsLoop, h, eq_self_iff_true, if_true]
  split <;> simp

theorem loop_run (n : Nat) (hn : 1 ≤ n) (u : Bool) :
    ∀ (seg acc rest : List StagingFile),
      (∀ f ∈ seg, f.useRudderStorage = u) →
      (∀ r, rest.head? = some r → r.useRudderStorage ≠ u) →
      acc.length < n →
      (acc = [] ∨ seg ≠ [] ∨ rest ≠ []) →
      createUploadJobsLoop n (seg ++ rest) (some u) acc acc.length =
        chunksOf n (acc ++ seg) ++ createUploadJobsLoop n rest (some u) [] 0 := by
  intro seg
  induction seg with
  | nil =>
    intro acc rest _ hrest hlen hne
    rcases eq_or_ne acc [] with hacc | hacc
    · subst hacc
      simp [chunksOf_nil]
    · have hrne : rest ≠ [] := by
        rcases hne with h | h | h
        · exact absurd h hacc
        · exact absurd rfl h
        · exact h
      cases rest with
      | nil => exact absurd rfl hrne
      | cons r rest' =>
        have hru : r.useRudderStorage ≠ u := hrest r (by simp)
        have h1 : decide (0 < acc.length) = true := by
          cases acc with
          | nil => exact absurd rfl hacc
          | cons a as => simp
        have hbig : ((some u).isSome && decide (0 < acc.length) &&
            (some r.useRudderStorage != some u)) = true := by
          simp [h1, hru]
        have hsmall : ((some u).isSome && decide ((0 : Nat) < 0) &&
            (some r.useRudderStorage != some u)) = false := by
          simp
        rw [List.nil_append, List.append_nil,
          show chunksOf n acc = [acc] from chunksOf_small hacc (le_of_lt hlen),
          loop_cons_flip n r rest' (some u) acc acc.length hbig,
          loop_cons_noflip n r rest' (some u) [] 0 hsmall]
        simp
  | cons f seg' ih =>
    intro acc rest hseg hrest hlen hne
    have hfu : f.useRudderStorage = u := hseg f (by simp)
    have hseg' : ∀ g ∈ seg', g.useRudderStorage = u :=
      fun g hg => hseg g (List.mem_cons_of_mem f hg)
    have hbig : ((some u).isSome && decide (0 < acc.length) &&
        (some f.useRudderStorage != some u)) = false := by
      simp [hfu]
    rw [List.cons_append,
      loop_cons_noflip n f (seg' ++ rest) (some u) acc acc.length hbig]
    by_cases hcn : acc.length + 1 = n
    · rw [if_pos (by simp [hcn])]
      rw [hfu]
      have hih := ih [] rest hseg' hrest (by simpa using hn) (Or.inl rfl)
      simp only [List.nil_append, List.length_nil] at hih
      rw [hih,
        show acc ++ f :: seg' = (acc ++ [f]) ++ seg' from by simp,
        chunksOf_append seg' (by simp [hcn]) (by simp)]
      simp
    · by_cases hemp : seg' ++ rest = []
      · have hseg0 : seg' = [] := (List.append_eq_nil.mp hemp).1
        have hrest0 : rest = [] := (List.append_eq_nil.mp hemp).2
        subst hseg0; subst hrest0
        rw [if_pos (by simp)]
        have hch : chunksOf n (acc ++ [f]) = [acc ++ [f]] :=
          chunksOf_small (by simp) (by simp; omega)
        simp [createUploadJobsLoop, hch]
      · have hempb : (seg' ++ rest).isEmpty = false := by
          cases hsr : seg' ++ rest with
          | nil => exact absurd hsr hemp
          | cons a l => rfl
        rw [if_neg (by simp [hcn, hempb])]
        rw [hfu]
        have hlen' : (acc ++ [f]).length < n := by simp; omega
        have hne' : (acc ++ [f]) = [] ∨ seg' ≠ [] ∨ rest ≠ [] := by
          rcases eq_or_ne seg' [] with h | h
          · subst h
            refine Or.inr (Or.inr (fun hr => hemp ?_))
            simp [hr]
          · exact Or.inr (Or.inl h)
        have hih := ih (acc ++ [f]) rest hseg' hrest hlen' hne'
        rw [show (acc ++ [f]).length = acc.length + 1 from by simp] at hih
        rw [hih]
        simp

theorem loop_eq_runs (n : Nat) (hn : 1 ≤ n) (files : List StagingFile) :
    createUploadJobsLoop n files none [] 0 =
      (runsBy (fun a b => a.useRudderStorage == b.useRudderStorage) files).flatMap
        (chunksOf n) := by
  generalize hN : files.length = N
  induction N using Nat.strong_induction_on generalizing files with
  | _ N ih =>
    cases files with
    | nil => simp [createUploadJobsLoop, runsBy]
    | cons x xs =>
      have hsegall : ∀ f ∈ x :: xs.takeWhile (fun b => x.useRudderStorage == b.useRudderStorage),
          f.useRudderStorage = x.useRudderStorage := by
        intro f hf
        rcases List.mem_cons.mp hf with h | h
        · rw [h]
        · have hp := @List.mem_takeWhile_imp _
            (fun b => x.useRudderStorage == b.useRudderStorage) xs f h
          exact (beq_iff_eq.mp hp).symm
      have hresthead : ∀ r,
          (xs.dropWhile (fun b => x.useRudderStorage == b.useRudderStorage)).head? = some r →
          r.useRudderStorage ≠ x.useRudderStorage := by
        intro r hr
        have hpr := head_dropWhile_false _ xs r hr
        simp only [beq_eq_false_iff_ne, ne_eq] at hpr
        exact fun h => hpr h.symm
      have hfiles : x :: xs =
          (x :: xs.takeWhile (fun b => x.useRudderStorage == b.useRudderStorage)) ++
            xs.dropWhile (fun b => x.useRudderStorage == b.useRudderStorage) := by
        rw [List.cons_append, List.takeWhile_append_dropWhile]
      have hL := loop_run n hn x.useRudderStorage
        (x :: xs.takeWhile (fun b => x.useRudderStorage == b.useRudderStorage)) []
        (xs.dropWhile (fun b => x.useRudderStorage == b.useRudderStorage))
        hsegall hresthead (by simpa using hn) (Or.inl rfl)
      simp only [List.nil_append, List.length_nil] at hL
      have hrestlen :
          (xs.dropWhile (fun b => x.useRudderStorage == b.useRudderStorage)).length < N := by
        have := (@List.dropWhile_sublist _ xs
          (fun b => x.useRudderStorage == b.useRudderStorage)).length_le
        simp only [← hN, List.length_cons]
        omega
      calc createUploadJobsLoop n (x :: xs) none [] 0
          = createUploadJobsLoop n (x :: xs) (some x.useRudderStorage) [] 0 :=
            loop_prev_irrel n (x :: xs) none (some x.useRudderStorage)
        _ = chunksOf n (x :: xs.takeWhile (fun b => x.useRudderStorage == b.useRudderStorage)) ++
            createUploadJobsLoop n
              (xs.dropWhile (fun b => x.useRudderStorage == b.useRudderStorage))
              (some x.useRudderStorage) [] 0 := by rw [hfiles]; exact hL
        _ = chunksOf n (x :: xs.takeWhile (fun b => x.useRudderStorage == b.useRudderStorage)) ++
            createUploadJobsLoop n
              (xs.dropWhile (fun b => x.useRudderStorage == b.useRudderStorage)) none [] 0 := by
              rw [loop_prev_irrel n _ (some x.useRudderStorage) none]
        _ = chunksOf n (x :: xs.takeWhile (fun b => x.useRudderStorage == b.useRudderStorage)) ++
            (runsBy (fun a b => a.useRudderStorage == b.useRudderStorage)
              (xs.dropWhile (fun b => x.useRudderStorage == b.useRudderStorage))).flatMap
              (chunksOf n) := by
              rw [ih _ hrestlen _ rfl]
        _ = (runsBy (fun a b => a.useRudderStorage == b.useRudderStorage) (x :: xs)).flatMap
              (chunksOf n) := by
              rw [show runsBy (fun a b => a.useRudderStorage == b.useRudderStorage) (x :: xs) =
                (x :: xs.takeWhile (fun b => x.useRudderStorage == b.useRudderStorage)) ::
                  runsBy (fun a b => a.useRudderStorage == b.useRudderStorage)
                    (xs.dropWhile (fun b => x.useRudderStorage == b.useRudderStorage)) from by
                simp [runsBy]]
              simp

/-- C4: for every id-ordered list of pending staging files and batch size
`n ≥ 1`, the Job Creator emits exactly one insert per chunk obtained by
splitting the list into maximal contiguous runs of equal
`useRudderStorage` and chunking each run by `n`, each insert carrying the
ids of the chunk's first and last members as its staging-file range. -/
theorem c4_creator_batching (n : Nat) (hn : 1 ≤ n) (files : List StagingFile) :
    createUploadJobsFromStagingFiles n files = claimBatchingSpec n files := by
  unfold createUploadJobsFromStagingFiles claimBatchingSpec
  rw [loop_eq_runs n hn files]

/-- Witness for C4: five files whose storage flag flips after id 3, batch
size 2, giving ranges [1..2], [3..3], [4..5]. -/
theorem c4_creator_batching_witness :
    (1 ≤ 2 ∧
      createUploadJobsFromStagingFiles 2
        [⟨1, true⟩, ⟨2, true⟩, ⟨3, true⟩, ⟨4, false⟩, ⟨5, false⟩] =
      claimBatchingSpec 2
        [⟨1, true⟩, ⟨2, true⟩, ⟨3, true⟩, ⟨4, false⟩, ⟨5, false⟩]) ∧
    createUploadJobsFromStagingFiles 2
        [⟨1, true⟩, ⟨2, true⟩, ⟨3, true⟩, ⟨4, false⟩, ⟨5, false⟩] =
      [(1, 2), (3, 3), (4, 5)] :=
  ⟨⟨by decide,
    c4_creator_batching 2 (by decide)
      [⟨1, true⟩, ⟨2, true⟩, ⟨3, true⟩, ⟨4, false⟩, ⟨5, false⟩]⟩,
    by decide⟩

/-- C3 counterexample: a manually triggered upload with carried-forward
priority 30 stores priority 30, not 50 — the carried priority overwrites
the manual-trigger value, so the claim's "the manual trigger wins" fails. -/
theorem c3_priority_counterexample :
    metadataPriority true 30 = some 30 ∧ metadataPriority true 30 ≠ some 50 := by
  constructor
  · rfl
  · intro h
    simp [metadataPriority] at h

/-- C3 amended: the stored priority equals the carried-forward priority
whenever that is non-zero (overriding a manual trigger); it is 50 when the
upload was manually triggered and the carried priority is zero; otherwise
the key is absent (and defaults to 100 at selection). -/
theorem c3_priority_amended (isUploadTriggered : Bool) (priority : Int) :
    metadataPriority isUploadTriggered priority =
      if priority ≠ 0 then some priority
      else if isUploadTriggered then some 50 else none := by
  rcases eq_or_ne priority 0 with h | h
  · subst h
    simp [metadataPriority]
  · simp [metadataPriority, h]

/-- C5 counterexample: two upload rows for the same pair inserted out of
order — the row with the greater id carries the smaller
`endStagingFileId`. The code returns 50 (the max-id row's value) while
`MAX(endStagingFileId)` is 100, so the claim fails. -/
theorem c5_latest_end_counterexample :
    latestEndStagingFileId "RS" "s" "d"
      [UploadRow.mk 1 "s" "d" "n" "RS" "w" "waiting" "" false none none 100,
       UploadRow.mk 2 "s" "d" "n" "RS" "w" "waiting" "" false none none 50] = 50 ∧
    maxEndStagingFileId "RS" "s" "d"
      [UploadRow.mk 1 "s" "d" "n" "RS" "w" "waiting" "" false none none 100,
       UploadRow.mk 2 "s" "d" "n" "RS" "w" "waiting" "" false none none 50] = 100 ∧
    (50 : Int) ≠ 100 := by
  refine ⟨by decide, by decide, by decide⟩

/-- C5 amended: the starting id used to discover pending staging files is
the `endStagingFileId` of the matching row with the greatest id (0 when
there is no matching row), not the maximum `endStagingFileId`. -/
theorem c5_latest_end_amended (dt s d : String) (rows : List UploadRow)
    (r : UploadRow)
    (hr : r ∈ rows.filter
      (fun q => q.destinationType == dt && q.sourceId == s && q.destinationId == d))
    (hmax : ∀ q ∈ rows.filter
      (fun q => q.destinationType == dt && q.sourceId == s && q.destinationId == d),
      q ≠ r → q.id < r.id) :
    latestEndStagingFileId dt s d rows = r.endStagingFileId := by
  unfold latestEndStagingFileId
  have hperm := sortRowsBy_perm (fun a b => decide (b.id ≤ a.id))
    (rows.filter
      (fun q => q.destinationType == dt && q.sourceId == s && q.destinationId == d))
  have hsorted := pairwise_sortRowsBy (fun a b => decide (b.id ≤ a.id))
    (fun a b => by simp only [Bool.or_eq_true, decide_eq_true_eq]; omega)
    (fun a b c h₁ h₂ => by simp only [decide_eq_true_eq] at h₁ h₂ ⊢; omega)
    (rows.filter
      (fun q => q.destinationType == dt && q.sourceId == s && q.destinationId == d))
  cases hsort : sortRowsBy (fun a b => decide (b.id ≤ a.id))
      (rows.filter
        (fun q => q.destinationType == dt && q.sourceId == s && q.destinationId == d)) with
  | nil =>
    rw [hsort] at hperm
    rw [← hperm.mem_iff] at hr
    simp at hr
  | cons m t =>
    rw [hsort] at hperm hsorted
    show m.endStagingFileId = r.endStagingFileId
    have hm : m ∈ rows.filter
        (fun q => q.destinationType == dt && q.sourceId == s && q.destinationId == d) :=
      hperm.mem_iff.mp (List.mem_cons_self m t)
    rcases eq_or_ne m r with h | h
    · rw [h]
    · exfalso
      have hlt : m.id < r.id := hmax m hm h
      rcases List.mem_cons.mp (hperm.mem_iff.mpr hr) with h' | h'
      · exact h h'.symm
      · have := (List.pairwise_cons.mp hsorted).1 r h'
        simp only [decide_eq_true_eq] at this
        omega

/-- Witness for C5 amended: the max-id row of a two-row table. -/
theorem c5_latest_end_amended_witness :
    ((UploadRow.mk 2 "s" "d" "n" "RS" "w" "waiting" "" false none none 50) ∈
      ([UploadRow.mk 1 "s" "d" "n" "RS" "w" "waiting" "" false none none 100,
        UploadRow.mk 2 "s" "d" "n" "RS" "w" "waiting" "" false none none 50].filter
        (fun q => q.destinationType == "RS" && q.sourceId == "s" && q.destinationId == "d"))) ∧
    latestEndStagingFileId "RS" "s" "d"
      [UploadRow.mk 1 "s" "d" "n" "RS" "w" "waiting" "" false none none 100,
       UploadRow.mk 2 "s" "d" "n" "RS" "w" "waiting" "" false none none 50] = 50 :=
  ⟨by decide,
    c5_latest_end_amended "RS" "s" "d"
      [UploadRow.mk 1 "s" "d" "n" "RS" "w" "waiting" "" false none none 100,
       UploadRow.mk 2 "s" "d" "n" "RS" "w" "waiting" "" false none none 50]
      (UploadRow.mk 2 "s" "d" "n" "RS" "w" "waiting" "" false none none 50)
      (by decide) (by decide)⟩

/-- C6 counterexample: a Creator iteration that passes the frequency gate
and finds no pending staging files returns without creating a job but also
without setting the last-processed marker — the claim says the marker is
set to now (plus jitter). -/
theorem c6_empty_marker_counterexample :
    (createJobs true (LatestUpload.mk 0 "" 0) [] [] 960 12345).markerUpdate = none ∧
    (createJobs true (LatestUpload.mk 0 "" 0) [] [] 960 12345).insertedJobs = [] := by
  constructor <;> rfl

/-- C6 amended: when the pending-staging-files query returns an empty
list, the Creator returns without creating any job and without updating
the connection's last-processed marker (the marker is only set on the
path that creates jobs). -/
theorem c6_empty_no_marker_amended (latest : LatestUpload)
    (inProgressIds : List Nat) (n : Nat) (uploadStartAfter : Int) :
    (createJobs true latest inProgressIds [] n uploadStartAfter).insertedJobs = [] ∧
    (createJobs true latest inProgressIds [] n uploadStartAfter).markerUpdate = none := by
  constructor <;> simp [createJobs]

/-- C7: in a Creator iteration that reaches the enqueue section, the
latest upload job is deleted exactly when its status is Waiting and its id
is absent from the in-progress index, in which case its priority is
carried forward (0 in every other case); and `deleteWaitingUploadJob`
itself removes exactly the row with that id whose status is still
Waiting, leaving rows in any other status untouched. -/
theorem c7_delete_waiting (latest : LatestUpload) (inProgressIds : List Nat)
    (pending : List StagingFile) (n : Nat) (uploadStartAfter : Int)
    (jobId : Nat) (rows : List UploadRow) :
    ((createJobs true latest inProgressIds pending n uploadStartAfter).deletedJobId =
        some latest.id ↔
      (latest.status = Waiting ∧ latest.id ∉ inProgressIds)) ∧
    ((createJobs true latest inProgressIds pending n uploadStartAfter).carriedPriority =
      if latest.status = Waiting ∧ latest.id ∉ inProgressIds then latest.priority
      else 0) ∧
    (∀ r, r ∈ deleteWaitingUploadJob jobId rows ↔
      r ∈ rows ∧ ¬(r.id = jobId ∧ r.status = Waiting)) := by
  have h0 : (createJobs true latest inProgressIds pending n uploadStartAfter).deletedJobId =
      if (latest.status == Waiting && !(inProgressIds.contains latest.id)) = true
      then some latest.id else none := by
    by_cases hp : pending.isEmpty = true <;>
      by_cases hdel : (latest.status == Waiting && !(inProgressIds.contains latest.id)) = true <;>
        simp [createJobs, hp, hdel]
  have h1 : (createJobs true latest inProgressIds pending n uploadStartAfter).carriedPriority =
      if (latest.status == Waiting && !(inProgressIds.contains latest.id)) = true
      then latest.priority else 0 := by
    by_cases hp : pending.isEmpty = true <;>
      by_cases hdel : (latest.status == Waiting && !(inProgressIds.contains latest.id)) = true <;>
        simp [createJobs, hp, hdel]
  refine ⟨?_, ?_, ?_⟩
  · rw [h0]
    by_cases hdel : (latest.status == Waiting && !(inProgressIds.contains latest.id)) = true
    · rw [if_pos hdel]
      simp only [Bool.and_eq_true, beq_iff_eq, Bool.not_eq_true'] at hdel
      simp at hdel ⊢
      exact hdel
    · rw [if_neg hdel]
      simp at hdel ⊢
      intro hw
      exact hdel hw
  · rw [h1]
    by_cases hdel : (latest.status == Waiting && !(inProgressIds.contains latest.id)) = true
    · rw [if_pos hdel]
      simp at hdel
      rw [if_pos hdel]
    · rw [if_neg hdel]
      simp at hdel
      rw [if_neg (by tauto)]
  · intro r
    simp only [deleteWaitingUploadJob, List.mem_filter, Bool.not_eq_true',
      Bool.and_eq_false_iff]
    constructor
    · rintro ⟨h1, h2⟩
      refine ⟨h1, ?_⟩
      rintro ⟨hid, hst⟩
      rcases h2 with h | h
      · simp [hid] at h
      · simp [hst] at h
    · rintro ⟨h1, h2⟩
      refine ⟨h1, ?_⟩
      by_cases hid : r.id = jobId
      · right
        by_cases hst : r.status = Waiting
        · exact absurd ⟨hid, hst⟩ h2
        · simpa using hst
      · left
        simpa using hid

/-- C9 counterexample: with an unparseable `syncFrequency` the computed
frequency is 0, yet `uploadFrequencyExceeded` is not false for every
marker value — a marker in the future (reachable, since jitter sets
markers up to 15s ahead) makes `now - marker < 0` true, so the gate can
still block. -/
theorem c9_frequency_gate_counterexample :
    getUploadFreqInS 1800 "30m" = 0 ∧
    uploadFrequencyExceeded 1800 "30m" (some 100) 90 = true := by
  constructor <;> rfl

/-- C9 amended: for a non-empty `syncFrequency` that does not parse as a
base-10 integer, `getUploadFreqInS` is 0 (the parse error is discarded),
and `uploadFrequencyExceeded` is false for every marker value not later
than `now` (and when no marker exists) — so the gate never blocks except
for the up-to-15-second window in which a jittered marker is still in the
future. -/
theorem c9_frequency_gate_amended (s : String) (hs : s ≠ "")
    (hbad : isGoInt64Literal s = false) (d : Int) (marker now : Int)
    (hm : marker ≤ now) :
    getUploadFreqInS d s = 0 ∧
    uploadFrequencyExceeded d s (some marker) now = false ∧
    uploadFrequencyExceeded d s none now = false := by
  have h0 : getUploadFreqInS d s = 0 := by
    simp [getUploadFreqInS, goParseInt64, hbad, hs]
  refine ⟨h0, ?_, rfl⟩
  simp only [uploadFrequencyExceeded, h0, decide_eq_false_iff_not, not_lt]
  omega

/-- Witness for C9 amended at `syncFrequency = "30m"`. -/
theorem c9_frequency_gate_amended_witness :
    (("30m" : String) ≠ "" ∧ isGoInt64Literal "30m" = false ∧ (5 : Int) ≤ 10) ∧
    (getUploadFreqInS 1800 "30m" = 0 ∧
      uploadFrequencyExceeded 1800 "30m" (some 5) 10 = false ∧
      uploadFrequencyExceeded 1800 "30m" none 10 = false) :=
  ⟨⟨by decide, by decide, by decide⟩,
    c9_frequency_gate_amended "30m" (by decide) (by decide) 1800 5 10 (by decide)⟩

theorem traverseOption_none {α β : Type} (f : α → Option β) :
    ∀ (l : List α) (a : α), a ∈ l → f a = none → traverseOption f l = none := by
  intro l
  induction l with
  | nil => intro a ha; simp at ha
  | cons x xs ih =>
    intro a ha hfa
    rcases List.mem_cons.mp ha with h | h
    · subst h
      simp [traverseOption, hfa]
    · rw [traverseOption, ih a h hfa]
      cases hx : f x <;> rfl

/-- C10: for a Clickhouse destination, `getNamespace` returns exactly the
destination config's `database` value, ignoring the `namespace` field, the
custom dataset prefix, the schema catalog and the source name; when the
`database` key is absent or not a string it panics (modelled as `none`),
and applying a config snapshot containing such a destination crashes the
subscriber instead of skipping the connection. -/
theorem c10_clickhouse_namespace (cfg : List (String × ConfigVal))
    (sourceName pfx : String) (catalog : Option String)
    (tpc tsn : String → String) (sources : List SourceCfg)
    (s : SourceCfg) (dst : DestCfg)
    (hmem : (s, dst) ∈ snapshotConnections CLICKHOUSE sources)
    (hbad : lookupCfg dst.config "database" = none ∨
      lookupCfg dst.config "database" = some ConfigVal.other) :
    (getNamespace CLICKHOUSE cfg sourceName pfx catalog tpc tsn =
      match lookupCfg cfg "database" with
      | some (ConfigVal.str x) => some x
      | _ => none) ∧
    applySnapshot CLICKHOUSE sources pfx catalog tpc tsn = none := by
  constructor
  · simp [getNamespace]
  · have hnone : getNamespace CLICKHOUSE dst.config s.name pfx catalog tpc tsn = none := by
      rcases hbad with h | h <;> simp [getNamespace, h]
    unfold applySnapshot
    exact traverseOption_none _ _ (s, dst) hmem (by simp [hnone])

/-- Witness for C10: a snapshot with one Clickhouse destination whose
config has no `database` key. -/
theorem c10_clickhouse_namespace_witness :
    ((SourceCfg.mk "s1" "src" [DestCfg.mk "d1" "CLICKHOUSE" []],
        DestCfg.mk "d1" "CLICKHOUSE" []) ∈
      snapshotConnections CLICKHOUSE
        [SourceCfg.mk "s1" "src" [DestCfg.mk "d1" "CLICKHOUSE" []]] ∧
      (lookupCfg [] "database" = none ∨
        lookupCfg [] "database" = some ConfigVal.other)) ∧
    (getNamespace CLICKHOUSE [("namespace", ConfigVal.str "ns")] "src" "pfx"
        (some "cat") id id =
      match lookupCfg [("namespace", ConfigVal.str "ns")] "database" with
      | some (ConfigVal.str x) => some x
      | _ => none) ∧
    applySnapshot CLICKHOUSE
      [SourceCfg.mk "s1" "src" [DestCfg.mk "d1" "CLICKHOUSE" []]] "pfx"
      (some "cat") id id = none :=
  ⟨⟨by decide, Or.inl (by decide)⟩,
    c10_clickhouse_namespace [("namespace", ConfigVal.str "ns")] "src" "pfx"
      (some "cat") id id
      [SourceCfg.mk "s1" "src" [DestCfg.mk "d1" "CLICKHOUSE" []]]
      (SourceCfg.mk "s1" "src" [DestCfg.mk "d1" "CLICKHOUSE" []])
      (DestCfg.mk "d1" "CLICKHOUSE" []) (by decide) (Or.inl (by decide))⟩

theorem mem_getUploadsToProcess {multi : Bool} {dt : String} {now : Int}
    {degraded skipped : List String} {w : Nat} {rows : List UploadRow}
    {r : UploadRow} (h : r ∈ getUploadsToProcess multi dt now degraded skipped w rows) :
    r ∈ rows ∧ selectable multi dt now degraded skipped r = true := by
  unfold getUploadsToProcess at h
  have h1 := (List.take_sublist w _).subset h
  have h2 := (sortRowsBy_perm rowLE _).mem_iff.mp h1
  have h3 := List.mem_filter.mp h2
  exact List.mem_filter.mp h3.1

/-- C8: a claimed row whose (source, destination) pair is no longer in the
Registry is not dispatched to any worker; the tick leaves it in the table
with status Aborted and an error whose text starts with "unable to find
source"; and — Aborted being filtered out by the claim query — no
subsequent selection ever returns a row with status Aborted. -/
theorem c8_unknown_connection_abort (multi : Bool) (K : Nat) (dt : String)
    (ws : List Warehouse) (now : Int) (degraded : List String) (w : Nat)
    (st : AllocState) (r : UploadRow)
    (hr : r ∈ claimedRows multi K dt now degraded w st)
    (hnf : findWarehouse ws r.sourceId r.destinationId = none) :
    (r ∉ (matchedPairs ws (claimedRows multi K dt now degraded w st)).map Prod.fst) ∧
    ({ r with status := Aborted, error := errStr r.sourceId r.destinationId } ∈
      (allocatorTick multi K dt ws now degraded w st).rows) ∧
    ("unable to find source".data <+: (errStr r.sourceId r.destinationId).data) ∧
    (∀ q : UploadRow, q.status = Aborted →
      ∀ (multi' : Bool) (dt' : String) (now' : Int)
        (degraded' skipped' : List String) (w' : Nat) (rows' : List UploadRow),
        q ∉ getUploadsToProcess multi' dt' now' degraded' skipped' w' rows') := by
  refine ⟨?_, ?_, ?_, ?_⟩
  · intro hmem
    rcases List.mem_map.mp hmem with ⟨pr, hpr, hfst⟩
    rcases List.mem_filterMap.mp hpr with ⟨a, _, hsome⟩
    rcases Option.map_eq_some'.mp hsome with ⟨wh, hwh, hpair⟩
    have ha : a = r := by rw [← hfst, ← hpair]
    rw [ha] at hwh
    rw [hnf] at hwh
    exact Option.noConfusion hwh
  · have hrrows : r ∈ st.rows := (mem_getUploadsToProcess hr).1
    have hid : r.id ∈ ((claimedRows multi K dt now degraded w st).filter
        (fun q => (findWarehouse ws q.sourceId q.destinationId).isNone)).map
          (fun q => q.id) :=
      List.mem_map_of_mem _ (List.mem_filter.mpr ⟨hr, by simp [hnf]⟩)
    have hcontains : (((claimedRows multi K dt now degraded w st).filter
        (fun q => (findWarehouse ws q.sourceId q.destinationId).isNone)).map
          (fun q => q.id)).contains r.id = true := by
      simpa using hid
    unfold allocatorTick
    refine List.mem_map.mpr ⟨r, hrrows, ?_⟩
    simp only [hcontains, if_true]
  · refine ⟨" : ".data ++ (r.sourceId.data ++ (" or destination : ".data ++
      (r.destinationId.data ++ ", both or the connection between them".data))), ?_⟩
    have h24 : ("unable to find source : " : String).data =
        "unable to find source".data ++ " : ".data := by decide
    simp [errStr, String.data_append, h24, List.append_assoc]
  · intro q hq multi' dt' now' degraded' skipped' w' rows' hmem
    have hsel := (mem_getUploadsToProcess hmem).2
    simp only [selectable, Bool.and_eq_true, bne_iff_ne, ne_eq] at hsel
    exact hsel.1.1.1.2 hq

/-- Witness for C8: a single selectable row whose connection is absent
from an empty Registry. -/
theorem c8_unknown_connection_abort_witness :
    ((UploadRow.mk 1 "s" "d" "n" "RS" "w" "waiting" "" false none none 0) ∈
        claimedRows false 1 "RS" 0 [] 1
          (initState [UploadRow.mk 1 "s" "d" "n" "RS" "w" "waiting" "" false none none 0]) ∧
      findWarehouse [] "s" "d" = none) ∧
    ({ UploadRow.mk 1 "s" "d" "n" "RS" "w" "waiting" "" false none none 0 with
        status := Aborted, error := errStr "s" "d" } ∈
      (allocatorTick false 1 "RS" [] 0 [] 1
        (initState [UploadRow.mk 1 "s" "d" "n" "RS" "w" "waiting" "" false none none 0])).rows) :=
  ⟨⟨by decide, by decide⟩,
    (c8_unknown_connection_abort false 1 "RS" [] 0 [] 1
      (initState [UploadRow.mk 1 "s" "d" "n" "RS" "w" "waiting" "" false none none 0])
      (UploadRow.mk 1 "s" "d" "n" "RS" "w" "waiting" "" false none none 0)
      (by decide) (by decide)).2.1⟩

theorem inProgressList_nil (q : String) : inProgressList [] q = [] := rfl

theorem inProgressList_map_entry {g : String × List Nat → String × List Nat}
    (hkey : ∀ e, (g e).1 = e.1) (m : List (String × List Nat)) (q : String) :
    inProgressList (m.map g) q =
      ((m.find? (fun e => e.1 == q)).map (fun e => (g e).2)).getD [] := by
  unfold inProgressList
  rw [List.find?_map]
  have hp : ((fun e : String × List Nat => e.1 == q) ∘ g) =
      (fun e : String × List Nat => e.1 == q) := by
    funext e
    simp [Function.comp, hkey e]
  rw [hp]
  cases m.find? (fun e => e.1 == q) <;> rfl

theorem inProgressList_setDest_ne (idf : String) (jobId : Nat) (q : String)
    (hq : q ≠ idf) (m : List (String × List Nat)) :
    inProgressList (setDestInProgress idf jobId m) q = inProgressList m q := by
  unfold setDestInProgress
  split
  · rw [inProgressList_map_entry (fun e => by split <;> rfl) m q]
    unfold inProgressList
    cases hfind : m.find? (fun e => e.1 == q) with
    | none => rfl
    | some e =>
      have hps := @List.find?_some _ (fun e : String × List Nat => e.1 == q) e m hfind
      have h1 : e.1 = q := beq_iff_eq.mp hps
      have h2 : e.1 ≠ idf := by rw [h1]; exact hq
      simp [h2]
  · unfold inProgressList
    rw [List.find?_append]
    have h3 : List.find? (fun e => e.1 == q) [(idf, [jobId])] = none := by
      rw [List.find?_eq_none]
      intro x hx
      simp only [List.mem_singleton] at hx
      rw [hx]
      simp only [beq_iff_eq]
      exact fun hh => hq hh.symm
    rw [h3, Option.or_none]

theorem inProgressList_setDest_self_len (idf : String) (jobId : Nat)
    (m : List (String × List Nat)) :
    (inProgressList (setDestInProgress idf jobId m) idf).length ≤
      (inProgressList m idf).length + 1 := by
  unfold setDestInProgress
  split
  · rw [inProgressList_map_entry (fun e => by split <;> rfl) m idf]
    unfold inProgressList
    cases hfind : m.find? (fun e => e.1 == idf) with
    | none => simp
    | some e =>
      simp only [Option.map_some', Option.getD_some]
      split
      · simp
      · simp
  · unfold inProgressList
    rw [List.find?_append]
    cases hfind : List.find? (fun e => e.1 == idf) m with
    | none => simp
    | some e => simp

theorem inProgressList_remove_len (p : String) (jobId : Nat) (q : String)
    (m : List (String × List Nat)) :
    (inProgressList (removeDestInProgress p jobId m) q).length ≤
      (inProgressList m q).length := by
  unfold removeDestInProgress
  rw [inProgressList_map_entry (fun e => by split <;> rfl) m q]
  unfold inProgressList
  cases hfind : m.find? (fun e => e.1 == q) with
  | none => simp
  | some e =>
    simp only [Option.map_some', Option.getD_some]
    split
    · exact List.length_erase_le jobId e.2
    · exact le_refl _

theorem len_lt_of_not_skipped (K : Nat) (hK : 1 ≤ K) (m : List (String × List Nat))
    (q : String) (hq : q ∉ getInProgressNamespaces K m) :
    (inProgressList m q).length < K := by
  unfold inProgressList
  cases hfind : m.find? (fun e => e.1 == q) with
  | none => simpa using hK
  | some e =>
    simp only [Option.map_some', Option.getD_some]
    by_contra h
    push_neg at h
    apply hq
    unfold getInProgressNamespaces
    refine List.mem_map.mpr ⟨e, List.mem_filter.mpr
      ⟨List.mem_of_find?_eq_some hfind, by simpa using h⟩, ?_⟩
    have hps := @List.find?_some _ (fun e : String × List Nat => e.1 == q) e m hfind
    exact beq_iff_eq.mp hps

theorem foldl_setDest_len (multi : Bool) :
    ∀ (pairs : List (UploadRow × Warehouse)) (m₀ : List (String × List Nat)) (q : String),
    (inProgressList (pairs.foldl
        (fun m rw => setDestInProgress (workerIdentifier multi rw.2) rw.1.id m) m₀) q).length ≤
      (inProgressList m₀ q).length +
        pairs.countP (fun x => workerIdentifier multi x.2 == q) := by
  intro pairs
  induction pairs with
  | nil => intro m₀ q; simp
  | cons x t ih =>
    intro m₀ q
    rw [List.foldl_cons, List.countP_cons]
    rcases eq_or_ne q (workerIdentifier multi x.2) with h | h
    · subst h
      have hx : (workerIdentifier multi x.2 == workerIdentifier multi x.2) = true :=
        beq_self_eq_true _
      have h1 := ih (setDestInProgress (workerIdentifier multi x.2) x.1.id m₀)
        (workerIdentifier multi x.2)
      have h2 := inProgressList_setDest_self_len (workerIdentifier multi x.2) x.1.id m₀
      simp only [hx, if_true]
      omega
    · have hx : (workerIdentifier multi x.2 == q) = false :=
        beq_eq_false_iff_ne.mpr (fun hh => h hh.symm)
      have h1 := ih (setDestInProgress (workerIdentifier multi x.2) x.1.id m₀) q
      rw [inProgressList_setDest_ne (workerIdentifier multi x.2) x.1.id q h m₀] at h1
      simp only [hx, if_false]
      omega

theorem countP_le_one_of_pairwise {α : Type} (f : α → String) (q : String) :
    ∀ (l : List α), l.Pairwise (fun x y => f x ≠ f y) →
    l.countP (fun x => f x == q) ≤ 1 := by
  intro l
  induction l with
  | nil => intro _; simp
  | cons x t ih =>
    intro hpw
    rcases List.pairwise_cons.mp hpw with ⟨hx, ht⟩
    rw [List.countP_cons]
    cases hfx : (f x == q) with
    | false =>
      simpa using ih ht
    | true =>
      have hq : f x = q := beq_iff_eq.mp hfx
      have hz : t.countP (fun y => f y == q) = 0 := by
        rw [List.countP_eq_zero]
        intro a ha
        simp only [beq_iff_eq]
        rw [← hq]
        exact fun hh => hx a ha hh.symm
      simp [hz]

theorem pairwise_pkey_getUploadsToProcess (multi : Bool) (dt : String) (now : Int)
    (degraded skipped : List String) (w : Nat) (rows : List UploadRow)
    (hids : (rows.map UploadRow.id).Nodup) :
    (getUploadsToProcess multi dt now degraded skipped w rows).Pairwise
      (fun a b => pkey multi a ≠ pkey multi b) := by
  unfold getUploadsToProcess
  set P := rows.filter (selectable multi dt now degraded skipped) with hP
  set firstRows := P.filter
    (fun r => P.all (fun q => if pkey multi q = pkey multi r then rowLE r q else true))
    with hFR
  have hPid : (P.map UploadRow.id).Nodup :=
    List.Nodup.sublist ((List.filter_sublist rows).map UploadRow.id) hids
  have hPnd : P.Nodup := List.Nodup.of_map UploadRow.id hPid
  have hmem_fr : ∀ r, r ∈ firstRows →
      (r ∈ P ∧ ∀ q ∈ P, pkey multi q = pkey multi r → rowLE r q = true) := by
    intro r hr
    rw [hFR, List.mem_filter, List.all_eq_true] at hr
    refine ⟨hr.1, fun q hq hk => ?_⟩
    have := hr.2 q hq
    rwa [if_pos hk] at this
  have huniq : ∀ a ∈ firstRows, ∀ b ∈ firstRows, pkey multi a = pkey multi b → a = b := by
    intro a ha b hb hk
    obtain ⟨haP, hamin⟩ := hmem_fr a ha
    obtain ⟨hbP, hbmin⟩ := hmem_fr b hb
    have h1 : rowLE a b = true := hamin b hbP hk.symm
    have h2 : rowLE b a = true := hbmin a haP hk
    exact eq_of_id_eq hPid haP hbP (rowLE_antisymm_key h1 h2).2
  have hnd : firstRows.Nodup := List.Nodup.sublist (List.filter_sublist P) hPnd
  have hpw : firstRows.Pairwise (fun a b => pkey multi a ≠ pkey multi b) := by
    refine List.Pairwise.imp_of_mem ?_ hnd
    intro a b ha hb hne hk
    exact hne (huniq a ha b hb hk)
  have hsorted : (sortRowsBy rowLE firstRows).Pairwise
      (fun a b => pkey multi a ≠ pkey multi b) :=
    ((sortRowsBy_perm rowLE firstRows).pairwise_iff
      (fun h hh => h hh.symm)).mpr hpw
  exact List.Pairwise.sublist (List.take_sublist w _) hsorted

theorem allocatorTick_preserves (multi : Bool) (K : Nat) (dt : String)
    (ws : List Warehouse) (now : Int) (degraded : List String) (w : Nat)
    (st : AllocState) (hK : 1 ≤ K)
    (hbound : ∀ p, (inProgressList st.inProgressMap p).length ≤ K)
    (hgood : rowsGood multi ws st.rows) :
    (∀ p, (inProgressList
        (allocatorTick multi K dt ws now degraded w st).inProgressMap p).length ≤ K) ∧
    rowsGood multi ws (allocatorTick multi K dt ws now degraded w st).rows := by
  obtain ⟨hids, hinj, hreg⟩ := hgood
  have hclaim_sub : ∀ r ∈ claimedRows multi K dt now degraded w st, r ∈ st.rows ∧
      selectable multi dt now degraded
        (getInProgressNamespaces K st.inProgressMap) r = true :=
    fun r h => mem_getUploadsToProcess h
  have hclaimpw : (claimedRows multi K dt now degraded w st).Pairwise
      (fun a b => pkey multi a ≠ pkey multi b) :=
    pairwise_pkey_getUploadsToProcess multi dt now degraded _ w st.rows hids
  have hpairpw : (matchedPairs ws (claimedRows multi K dt now degraded w st)).Pairwise
      (fun x y => workerIdentifier multi x.2 ≠ workerIdentifier multi y.2) := by
    rw [matchedPairs, List.pairwise_filterMap]
    refine List.Pairwise.imp_of_mem ?_ hclaimpw
    intro a b ha hb hne x hx y hy
    rcases Option.map_eq_some'.mp (Option.mem_def.mp hx) with ⟨wa, hwa, hxa⟩
    rcases Option.map_eq_some'.mp (Option.mem_def.mp hy) with ⟨wb, hwb, hyb⟩
    have h1 : workerIdentifier multi wa = skipIdentifier multi a :=
      hreg a (hclaim_sub a ha).1 wa hwa
    have h2 : workerIdentifier multi wb = skipIdentifier multi b :=
      hreg b (hclaim_sub b hb).1 wb hwb
    rw [← hxa, ← hyb]
    show workerIdentifier multi wa ≠ workerIdentifier multi wb
    rw [h1, h2]
    exact hinj a (hclaim_sub a ha).1 b (hclaim_sub b hb).1 hne
  have hfeq : ∀ a : UploadRow,
      ((fun r => if (((claimedRows multi K dt now degraded w st).filter
          (fun r => (findWarehouse ws r.sourceId r.destinationId).isNone)).map
            (fun r => r.id)).contains r.id then
          { r with status := Aborted, error := errStr r.sourceId r.destinationId }
        else r) a).sourceId = a.sourceId ∧
      ((fun r => if (((claimedRows multi K dt now degraded w st).filter
          (fun r => (findWarehouse ws r.sourceId r.destinationId).isNone)).map
            (fun r => r.id)).contains r.id then
          { r with status := Aborted, error := errStr r.sourceId r.destinationId }
        else r) a).destinationId = a.destinationId ∧
      ((fun r => if (((claimedRows multi K dt now degraded w st).filter
          (fun r => (findWarehouse ws r.sourceId r.destinationId).isNone)).map
            (fun r => r.id)).contains r.id then
          { r with status := Aborted, error := errStr r.sourceId r.destinationId }
        else r) a).nsp = a.nsp ∧
      ((fun r => if (((claimedRows multi K dt now degraded w st).filter
          (fun r => (findWarehouse ws r.sourceId r.destinationId).isNone)).map
            (fun r => r.id)).contains r.id then
          { r with status := Aborted, error := errStr r.sourceId r.destinationId }
        else r) a).id = a.id := by
    intro a
    refine ⟨?_, ?_, ?_, ?_⟩ <;> (dsimp only; split <;> rfl)
  constructor
  · intro p
    have hfold := foldl_setDest_len multi
      (matchedPairs ws (claimedRows multi K dt now degraded w st))
      st.inProgressMap p
    rcases Nat.eq_zero_or_pos ((matchedPairs ws
        (claimedRows multi K dt now degraded w st)).countP
        (fun x => workerIdentifier multi x.2 == p)) with hc | hc
    · have := hbound p
      rw [hc] at hfold
      show (inProgressList ((matchedPairs ws
        (claimedRows multi K dt now degraded w st)).foldl
        (fun m rw => setDestInProgress (workerIdentifier multi rw.2) rw.1.id m)
        st.inProgressMap) p).length ≤ K
      omega
    · have hle1 : ((matchedPairs ws (claimedRows multi K dt now degraded w st)).countP
          (fun x => workerIdentifier multi x.2 == p)) ≤ 1 :=
        countP_le_one_of_pairwise
          (fun x : UploadRow × Warehouse => workerIdentifier multi x.2) p
          (matchedPairs ws (claimedRows multi K dt now degraded w st)) hpairpw
      obtain ⟨x, hxmem, hxp⟩ := List.countP_pos.mp hc
      have hxid : workerIdentifier multi x.2 = p := beq_iff_eq.mp hxp
      rcases List.mem_filterMap.mp hxmem with ⟨a, ha, hsome⟩
      rcases Option.map_eq_some'.mp hsome with ⟨wa, hwa, hxa⟩
      have hwax : wa = x.2 := by rw [← hxa]
      have hskip : skipIdentifier multi a ∉
          getInProgressNamespaces K st.inProgressMap := by
        have hsel := (hclaim_sub a ha).2
        unfold selectable at hsel
        simp only [Bool.and_eq_true, Bool.not_eq_true'] at hsel
        intro hmem
        have hcont := hsel.2
        have htrue : (getInProgressNamespaces K st.inProgressMap).contains
            (skipIdentifier multi a) = true := List.elem_iff.mpr hmem
        rw [hcont] at htrue
        exact Bool.noConfusion htrue
      have hpid : p = skipIdentifier multi a := by
        rw [← hxid, ← hwax]
        exact hreg a (hclaim_sub a ha).1 wa hwa
      have hlt : (inProgressList st.inProgressMap p).length < K := by
        rw [hpid]
        exact len_lt_of_not_skipped K hK _ _ hskip
      show (inProgressList ((matchedPairs ws
        (claimedRows multi K dt now degraded w st)).foldl
        (fun m rw => setDestInProgress (workerIdentifier multi rw.2) rw.1.id m)
        st.inProgressMap) p).length ≤ K
      omega
  · refine ⟨?_, ?_, ?_⟩
    · show ((st.rows.map (fun r =>
        if (((claimedRows multi K dt now degraded w st).filter
          (fun r => (findWarehouse ws r.sourceId r.destinationId).isNone)).map
            (fun r => r.id)).contains r.id then
          { r with status := Aborted, error := errStr r.sourceId r.destinationId }
        else r)).map UploadRow.id).Nodup
      rw [List.map_map]
      have hpt : ∀ a ∈ st.rows, (UploadRow.id ∘ (fun r =>
          if (((claimedRows multi K dt now degraded w st).filter
            (fun r => (findWarehouse ws r.sourceId r.destinationId).isNone)).map
              (fun r => r.id)).contains r.id then
            { r with status := Aborted, error := errStr r.sourceId r.destinationId }
          else r)) a = UploadRow.id a := by
        intro a _
        exact (hfeq a).2.2.2
      rw [List.map_eq_map_iff.mpr hpt]
      exact hids
    · intro r₁ h₁ r₂ h₂
      have h₁' : r₁ ∈ st.rows.map (fun r =>
        if (((claimedRows multi K dt now degraded w st).filter
          (fun r => (findWarehouse ws r.sourceId r.destinationId).isNone)).map
            (fun r => r.id)).contains r.id then
          { r with status := Aborted, error := errStr r.sourceId r.destinationId }
        else r) := h₁
      have h₂' : r₂ ∈ st.rows.map (fun r =>
        if (((claimedRows multi K dt now degraded w st).filter
          (fun r => (findWarehouse ws r.sourceId r.destinationId).isNone)).map
            (fun r => r.id)).contains r.id then
          { r with status := Aborted, error := errStr r.sourceId r.destinationId }
        else r) := h₂
      rcases List.mem_map.mp h₁' with ⟨a₁, ha₁, he₁⟩
      rcases List.mem_map.mp h₂' with ⟨a₂, ha₂, he₂⟩
      have hk₁ : pkey multi r₁ = pkey multi a₁ := by
        rw [← he₁]
        simp only [pkey, (hfeq a₁).1, (hfeq a₁).2.1, (hfeq a₁).2.2.1]
      have hs₁ : skipIdentifier multi r₁ = skipIdentifier multi a₁ := by
        rw [← he₁]
        simp only [skipIdentifier, (hfeq a₁).1, (hfeq a₁).2.1, (hfeq a₁).2.2.1]
      have hk₂ : pkey multi r₂ = pkey multi a₂ := by
        rw [← he₂]
        simp only [pkey, (hfeq a₂).1, (hfeq a₂).2.1, (hfeq a₂).2.2.1]
      have hs₂ : skipIdentifier multi r₂ = skipIdentifier multi a₂ := by
        rw [← he₂]
        simp only [skipIdentifier, (hfeq a₂).1, (hfeq a₂).2.1, (hfeq a₂).2.2.1]
      rw [hk₁, hs₁, hk₂, hs₂]
      exact hinj a₁ ha₁ a₂ ha₂
    · intro r hr wh hwh
      have hr' : r ∈ st.rows.map (fun r =>
        if (((claimedRows multi K dt now degraded w st).filter
          (fun r => (findWarehouse ws r.sourceId r.destinationId).isNone)).map
            (fun r => r.id)).contains r.id then
          { r with status := Aborted, error := errStr r.sourceId r.destinationId }
        else r) := hr
      rcases List.mem_map.mp hr' with ⟨a, ha, hea⟩
      have hsrc : r.sourceId = a.sourceId := by rw [← hea]; exact (hfeq a).1
      have hdst : r.destinationId = a.destinationId := by rw [← hea]; exact (hfeq a).2.1
      have hsk : skipIdentifier multi r = skipIdentifier multi a := by
        rw [← hea]
        simp only [skipIdentifier, (hfeq a).1, (hfeq a).2.1, (hfeq a).2.2.1]
      rw [hsk]
      rw [hsrc, hdst] at hwh
      exact hreg a ha wh hwh

/-- C2 counterexample: two selectable rows in distinct partitions —
`(destinationId, namespace)` pairs `("a_b", "c")` and `("a", "b_c")` —
share the worker-identifier string `"a_b_c"`, so one tick with
`maxConcurrentUploadJobs = 1` claims both and the in-progress entry for
`"a_b_c"` reaches length 2: the claimed bound fails in a reachable
state. -/
theorem c2_partition_exclusivity_counterexample :
    AllocReachable false 1 "RS"
      [Warehouse.mk "s1" "a_b" "c", Warehouse.mk "s2" "a" "b_c"]
      (initState
        [UploadRow.mk 1 "s1" "a_b" "c" "RS" "w" "waiting" "" false none none 0,
         UploadRow.mk 2 "s2" "a" "b_c" "RS" "w" "waiting" "" false none none 0])
      (allocatorTick false 1 "RS"
        [Warehouse.mk "s1" "a_b" "c", Warehouse.mk "s2" "a" "b_c"] 0 [] 2
        (initState
          [UploadRow.mk 1 "s1" "a_b" "c" "RS" "w" "waiting" "" false none none 0,
           UploadRow.mk 2 "s2" "a" "b_c" "RS" "w" "waiting" "" false none none 0])) ∧
    (inProgressList
      (allocatorTick false 1 "RS"
        [Warehouse.mk "s1" "a_b" "c", Warehouse.mk "s2" "a" "b_c"] 0 [] 2
        (initState
          [UploadRow.mk 1 "s1" "a_b" "c" "RS" "w" "waiting" "" false none none 0,
           UploadRow.mk 2 "s2" "a" "b_c" "RS" "w" "waiting" "" false none none 0])).inProgressMap
      "a_b_c").length = 2 ∧
    ¬((inProgressList
      (allocatorTick false 1 "RS"
        [Warehouse.mk "s1" "a_b" "c", Warehouse.mk "s2" "a" "b_c"] 0 [] 2
        (initState
          [UploadRow.mk 1 "s1" "a_b" "c" "RS" "w" "waiting" "" false none none 0,
           UploadRow.mk 2 "s2" "a" "b_c" "RS" "w" "waiting" "" false none none 0])).inProgressMap
      "a_b_c").length ≤ 1) :=
  ⟨Relation.ReflTransGen.single (AllocStep.tick 0 [] 2 _), by decide, by decide⟩

/-- C2 amended: the per-partition-key bound holds in every reachable state
provided `maxConcurrentUploadJobs ≥ 1` and the rows are well-formed: ids
are unique, rows in distinct partitions have distinct identifier strings
(no underscore collisions), and the identifier the allocator records from
the Registry agrees with each row's own identifier string. -/
theorem c2_partition_exclusivity_amended (multi : Bool) (K : Nat) (dt : String)
    (ws : List Warehouse) (rows₀ : List UploadRow) (st : AllocState)
    (hK : 1 ≤ K) (hgood : rowsGood multi ws rows₀)
    (hreach : AllocReachable multi K dt ws (initState rows₀) st) :
    ∀ p, (inProgressList st.inProgressMap p).length ≤ K := by
  suffices h : (∀ p, (inProgressList st.inProgressMap p).length ≤ K) ∧
      rowsGood multi ws st.rows from h.1
  unfold AllocReachable at hreach
  induction hreach with
  | refl =>
    refine ⟨fun p => ?_, hgood⟩
    show (inProgressList ([] : List (String × List Nat)) p).length ≤ K
    simp [inProgressList_nil]
  | tail hsteps hstep ih =>
    cases hstep with
    | tick now degraded w stb =>
      exact allocatorTick_preserves multi K dt ws now degraded w _ hK ih.1 ih.2
    | complete p jobId stb =>
      exact ⟨fun q => le_trans (inProgressList_remove_len p jobId q _) (ih.1 q), ih.2⟩

/-- Witness for C2 amended: one well-formed row and its Registry entry;
after one tick the entry for its identifier stays within the bound. -/
theorem c2_partition_exclusivity_amended_witness :
    (1 ≤ 1 ∧
      rowsGood false [Warehouse.mk "s" "d" "n"]
        [UploadRow.mk 1 "s" "d" "n" "RS" "w" "waiting" "" false none none 0]) ∧
    (inProgressList
      (allocatorTick false 1 "RS" [Warehouse.mk "s" "d" "n"] 0 [] 1
        (initState
          [UploadRow.mk 1 "s" "d" "n" "RS" "w" "waiting" "" false none none 0])).inProgressMap
      "d_n").length ≤ 1 := by
  have hgood : rowsGood false [Warehouse.mk "s" "d" "n"]
      [UploadRow.mk 1 "s" "d" "n" "RS" "w" "waiting" "" false none none 0] := by
    refine ⟨by decide, ?_, ?_⟩
    · intro r₁ h₁ r₂ h₂
      simp only [List.mem_singleton] at h₁ h₂
      subst h₁; subst h₂
      intro h
      exact absurd rfl h
    · intro r hrm wh hw
      simp only [List.mem_singleton] at hrm
      subst hrm
      have hfw : findWarehouse [Warehouse.mk "s" "d" "n"] "s" "d" =
          some (Warehouse.mk "s" "d" "n") := by decide
      rw [hfw] at hw
      injection hw with hw'
      subst hw'
      decide
  exact ⟨⟨le_refl 1, hgood⟩,
    c2_partition_exclusivity_amended false 1 "RS" [Warehouse.mk "s" "d" "n"]
      [UploadRow.mk 1 "s" "d" "n" "RS" "w" "waiting" "" false none none 0] _
      (le_refl 1) hgood
      (Relation.ReflTransGen.single (AllocStep.tick 0 [] 1 _)) "d_n"⟩
